import Mathlib

/-!
Verification of the progress-tracking and recurrence engine of a
personal goal-tracker application (check-in ledger, streak and percent
calculators, hierarchical goal-progress aggregation, recurrence
calculator, inbox deduplication, webhook signature window, and the
not-found behaviour of the core mutations).

Modelling conventions, chosen once for the whole development:

* Dates are modelled at day granularity: a date is the integer number
  of days since an epoch (day 0 is January 1 of year 0 in the proleptic
  Gregorian calendar used by the calendar model further down).  The
  stores normalize every date to midnight before storing or comparing
  it, so `normalizeDate` is the identity here and is omitted.
* JavaScript `number` arithmetic on the small integer quantities that
  appear is exact and is modelled with `ℚ`, `ℤ` and `ℕ`;
  `Math.round` on a nonnegative value is `⌊x + 1/2⌋`.
* The document store is modelled as the list of records it holds for
  the current user; `addDoc` appends a record carrying a caller
  supplied fresh document id, `deleteDoc` filters by id.
* Fallible operations return `Except String`; a thrown `Error` is
  `Except.error` with its message.
-/

/-- JavaScript `Math.round` for nonnegative values: round half up. -/
def jsRound (q : ℚ) : ℕ := ⌊q + 1/2⌋₊

/-- Integer form of round-half-up division: `roundDiv a b` is
`a / b` rounded to the nearest integer, halves up. -/
def roundDiv (a b : ℕ) : ℕ := (2 * a + b) / (2 * b)

theorem jsRound_div_eq_roundDiv (a b : ℕ) (hb : b ≠ 0) :
    jsRound ((a : ℚ) / (b : ℚ)) = roundDiv a b := by
  have hb' : (b : ℚ) ≠ 0 := Nat.cast_ne_zero.mpr hb
  have key : (a : ℚ) / (b : ℚ) + 1/2 = ((2 * a + b : ℕ) : ℚ) / ((2 * b : ℕ) : ℚ) := by
    push_cast
    field_simp
    ring
  rw [jsRound, key, Nat.floor_div_nat, Nat.floor_natCast]
  rfl

/-- One daily check-in record (`DailyCheckIn` in `src/types/index.ts`),
scoped to a single user (the `userId` field is the collection scope and
is omitted). -/
structure DailyCheckIn where
  id : ℕ
  goalId : String
  date : ℤ
  completed : Bool
  notes : Option String
  createdAt : ℤ
deriving DecidableEq, Repr

namespace TrackingStore

/-- `getCheckInsForGoal` from `src/stores/trackingStore.ts`. -/
def getCheckInsForGoal (checkIns : List DailyCheckIn) (goalId : String) :
    List DailyCheckIn :=
  checkIns.filter (fun c => c.goalId == goalId)

/-- `getCheckInForDate` from `src/stores/trackingStore.ts`. -/
def getCheckInForDate (checkIns : List DailyCheckIn) (goalId : String) (date : ℤ) :
    Option DailyCheckIn :=
  checkIns.find? (fun c => c.goalId == goalId && c.date == date)

/-- `addCheckIn` from `src/stores/trackingStore.ts`: appends a record
with a store-generated fresh document id. -/
def addCheckIn (checkIns : List DailyCheckIn) (freshId : ℕ) (goalId : String)
    (date : ℤ) (completed : Bool) (notes : Option String) (now : ℤ) :
    List DailyCheckIn :=
  checkIns ++ [⟨freshId, goalId, date, completed, notes, now⟩]

/-- `removeCheckIn` from `src/stores/trackingStore.ts`: deletes the
record with the given document id. -/
def removeCheckIn (checkIns : List DailyCheckIn) (id : ℕ) : List DailyCheckIn :=
  checkIns.filter (fun c => !(c.id == id))

/-- `toggleCheckIn` from `src/stores/trackingStore.ts`.  Note the
shape of the source: when a record exists for the (goal, day) pair it
is removed only if it is completed, and nothing at all happens when it
exists but is not completed; a new completed record is created only
when no record exists. -/
def toggleCheckIn (checkIns : List DailyCheckIn) (freshId : ℕ) (now : ℤ)
    (goalId : String) (date : ℤ) : List DailyCheckIn :=
  match getCheckInForDate checkIns goalId date with
  | some existing =>
      if existing.completed then removeCheckIn checkIns existing.id else checkIns
  | none => addCheckIn checkIns freshId goalId date true none now

/-- `calculateProgress` from `src/stores/trackingStore.ts`: percent of
`targetDays` covered by completed check-ins, clamped at 100.  The
`_trackingStartDate` argument is accepted but unused, exactly as in the
source. -/
def calculateProgress (checkIns : List DailyCheckIn) (goalId : String)
    (targetDays : ℕ) (_trackingStartDate : ℤ) : ℕ :=
  let cs := getCheckInsForGoal checkIns goalId
  let completedDays := (cs.filter (fun c => c.completed)).length
  min 100 (jsRound ((completedDays : ℚ) / (targetDays : ℚ) * 100))

/-- The descending-by-date ordering used by `getStreakForGoal`'s sort
comparator `(a, b) => b.date - a.date`. -/
def dateDesc (a b : DailyCheckIn) : Prop := b.date ≤ a.date

instance : DecidableRel dateDesc := fun a b => Int.decLe b.date a.date

instance : IsTotal DailyCheckIn dateDesc := ⟨fun a b => le_total b.date a.date⟩

instance : IsTrans DailyCheckIn dateDesc :=
  ⟨fun _ _ _ hab hbc => le_trans hbc hab⟩

/-- The loop of `getStreakForGoal`: walk the descending records with a
cursor date; a record equal to the cursor extends the streak and moves
the cursor one day back, a record earlier than the cursor is a gap and
stops the walk (`break`), a record later than the cursor is passed
over. -/
def streakWalk : List DailyCheckIn → ℤ → ℕ → ℕ
  | [], _, streak => streak
  | c :: rest, cur, streak =>
    if c.date = cur then streakWalk rest (cur - 1) (streak + 1)
    else if c.date < cur then streak
    else streakWalk rest cur streak

/-- `getStreakForGoal` from `src/stores/trackingStore.ts`, with the
current day passed explicitly in place of `new Date()`. -/
def getStreakForGoal (checkIns : List DailyCheckIn) (goalId : String)
    (today : ℤ) : ℕ :=
  let cs :=
    List.insertionSort dateDesc
      ((getCheckInsForGoal checkIns goalId).filter (fun c => c.completed))
  if cs.length = 0 then 0 else streakWalk cs today 0

end TrackingStore

namespace TrackingStore

/-- C2: for every goal and positive `targetDays`,
`percentComplete(goalId, targetDays)` equals
`round(100 * completedCount / targetDays)` clamped to a maximum of 100,
where `completedCount` counts every record of the goal with
`completed = true`; the result does not depend on the goal's
`trackingStartDate`. -/
theorem percentComplete_spec (checkIns : List DailyCheckIn) (goalId : String)
    (targetDays : ℕ) (tsd₁ tsd₂ : ℤ) (ht : 0 < targetDays) :
    calculateProgress checkIns goalId targetDays tsd₁ =
      min 100 (roundDiv
        (100 * checkIns.countP (fun c => c.goalId == goalId && c.completed))
        targetDays) ∧
    calculateProgress checkIns goalId targetDays tsd₁ =
      calculateProgress checkIns goalId targetDays tsd₂ := by
  constructor
  · have hc : ((getCheckInsForGoal checkIns goalId).filter
          (fun c => c.completed)).length
        = checkIns.countP (fun c => c.goalId == goalId && c.completed) := by
      unfold getCheckInsForGoal
      rw [List.filter_filter, ← List.countP_eq_length_filter]
      exact List.countP_congr (fun a _ => by simp [Bool.and_comm])
    have hq : (((getCheckInsForGoal checkIns goalId).filter
            (fun c => c.completed)).length : ℚ) / (targetDays : ℚ) * 100
        = ((100 * checkIns.countP (fun c => c.goalId == goalId && c.completed) : ℕ) : ℚ)
          / (targetDays : ℚ) := by
      rw [hc]; push_cast; ring
    simp only [calculateProgress]
    rw [hq, jsRound_div_eq_roundDiv _ _ ht.ne']
  · rfl

/-- Witness for `percentComplete_spec` at a concrete ledger. -/
theorem percentComplete_spec_witness :
    calculateProgress [⟨0, "g", 0, true, none, 0⟩, ⟨1, "g", 1, true, none, 0⟩] "g" 30 0 =
      min 100 (roundDiv
        (100 * List.countP (fun c => c.goalId == "g" && c.completed)
          ([⟨0, "g", 0, true, none, 0⟩, ⟨1, "g", 1, true, none, 0⟩] : List DailyCheckIn))
        30) ∧
    calculateProgress [⟨0, "g", 0, true, none, 0⟩, ⟨1, "g", 1, true, none, 0⟩] "g" 30 0 =
      calculateProgress [⟨0, "g", 0, true, none, 0⟩, ⟨1, "g", 1, true, none, 0⟩] "g" 30 7 :=
  percentComplete_spec [⟨0, "g", 0, true, none, 0⟩, ⟨1, "g", 1, true, none, 0⟩]
    "g" 30 0 7 (by decide)

/-- C5: toggling a day with no record creates a completed record for
it, and toggling again removes exactly that record, returning the
ledger to its original state.  `hfresh` states that the store-assigned
document id of the created record is fresh. -/
theorem toggle_twice_roundtrip (checkIns : List DailyCheckIn) (goalId : String)
    (date : ℤ) (id₁ id₂ : ℕ) (now₁ now₂ : ℤ)
    (hnone : getCheckInForDate checkIns goalId date = none)
    (hfresh : ∀ c ∈ checkIns, c.id ≠ id₁) :
    toggleCheckIn checkIns id₁ now₁ goalId date =
      addCheckIn checkIns id₁ goalId date true none now₁ ∧
    toggleCheckIn (toggleCheckIn checkIns id₁ now₁ goalId date) id₂ now₂ goalId date =
      checkIns := by
  have h₁ : toggleCheckIn checkIns id₁ now₁ goalId date
      = addCheckIn checkIns id₁ goalId date true none now₁ := by
    unfold toggleCheckIn
    rw [hnone]
  refine ⟨h₁, ?_⟩
  rw [h₁]
  have hfind : getCheckInForDate (addCheckIn checkIns id₁ goalId date true none now₁)
      goalId date = some ⟨id₁, goalId, date, true, none, now₁⟩ := by
    unfold getCheckInForDate addCheckIn
    unfold getCheckInForDate at hnone
    rw [List.find?_append, hnone, Option.none_or]
    simp
  unfold toggleCheckIn
  rw [hfind]
  simp only [if_pos rfl]
  unfold removeCheckIn addCheckIn
  rw [List.filter_append]
  have h₂ : checkIns.filter (fun c => !(c.id == id₁)) = checkIns :=
    List.filter_eq_self.mpr (fun c hc => by simpa using hfresh c hc)
  rw [h₂]
  simp

/-- Witness for `toggle_twice_roundtrip` on the empty ledger. -/
theorem toggle_twice_roundtrip_witness :
    toggleCheckIn [] 5 7 "g" 3 = addCheckIn [] 5 "g" 3 true none 7 ∧
    toggleCheckIn (toggleCheckIn [] 5 7 "g" 3) 6 8 "g" 3 = [] :=
  toggle_twice_roundtrip [] "g" 3 5 6 7 8 (by decide) (by decide)

/-- C6 counterexample: toggling a day whose record exists with
`completed = false` does not create a new completed record (the claim
predicted it behaves like the no-record case); the ledger is left
unchanged instead. -/
theorem toggle_not_completed_counterexample :
    toggleCheckIn [⟨0, "g", 0, false, none, 0⟩] 1 5 "g" 0 ≠
      addCheckIn [⟨0, "g", 0, false, none, 0⟩] 1 "g" 0 true none 5 ∧
    toggleCheckIn [⟨0, "g", 0, false, none, 0⟩] 1 5 "g" 0 =
      [⟨0, "g", 0, false, none, 0⟩] := by
  constructor
  · decide
  · decide

/-- C6 amended: toggling a (goal, day) whose existing record has
`completed = false` is a no-op: the ledger is returned unchanged
(nothing is created and nothing is removed). -/
theorem toggle_not_completed_noop (checkIns : List DailyCheckIn) (goalId : String)
    (date : ℤ) (freshId : ℕ) (now : ℤ) (c : DailyCheckIn)
    (hfind : getCheckInForDate checkIns goalId date = some c)
    (hnc : c.completed = false) :
    toggleCheckIn checkIns freshId now goalId date = checkIns := by
  unfold toggleCheckIn
  rw [hfind]
  simp [hnc]

/-- Witness for `toggle_not_completed_noop`. -/
theorem toggle_not_completed_noop_witness :
    toggleCheckIn [⟨0, "g", 0, false, none, 0⟩] 1 5 "g" 0 =
      [⟨0, "g", 0, false, none, 0⟩] :=
  toggle_not_completed_noop [⟨0, "g", 0, false, none, 0⟩] "g" 0 1 5
    ⟨0, "g", 0, false, none, 0⟩ (by decide) (by decide)

end TrackingStore

/-- Todo status (`TodoStatus` in `src/types/index.ts`). -/
inductive TodoStatus
  | pending
  | inProgress
  | completed
  | cancelled
deriving DecidableEq, Repr

/-- A todo (`Todo` in `src/types/index.ts`), restricted to the fields
the verified logic reads or writes; datelike fields are epoch days. -/
structure Todo where
  id : String
  goalId : Option String
  status : TodoStatus
  source : String
  sourceId : Option String
  updatedAt : ℤ
deriving DecidableEq, Repr

namespace TodosStore

/-- `updateTodo` from the todos store: look the todo up in the current
snapshot; when absent, return without touching the store.  The caller
supplied partial update is modelled as the merge function `upd`; the
operation also stamps `updatedAt` with the current time. -/
def updateTodo (todos : List Todo) (id : String) (upd : Todo → Todo) (now : ℤ) :
    Except String (List Todo) :=
  match todos.find? (fun t => t.id == id) with
  | none => .ok todos
  | some _ =>
      .ok (todos.map (fun t =>
        if t.id == id then { upd t with updatedAt := now } else t))

/-- `deleteTodo` from the todos store: look the todo up; when absent,
return without touching the store. -/
def deleteTodo (todos : List Todo) (id : String) : Except String (List Todo) :=
  match todos.find? (fun t => t.id == id) with
  | none => .ok todos
  | some _ => .ok (todos.filter (fun t => !(t.id == id)))

end TodosStore

/-- Inbox item status (`InboxStatus` in `src/types/index.ts`). -/
inductive InboxStatus
  | pending
  | converted
  | dismissed
deriving DecidableEq, Repr

/-- An inbox item as held by the inbox store
(`src/stores/categoriesStore.ts`), restricted to the fields its
mutations read or write. -/
structure StoreInboxItem where
  id : String
  status : InboxStatus
  convertedToId : Option String
  convertedAt : Option ℤ
  updatedAt : ℤ
deriving DecidableEq, Repr

namespace InboxStore

/-- `dismissItem` from `src/stores/categoriesStore.ts`: look the item
up in the current snapshot; when absent, return silently; otherwise set
its status to `dismissed`. -/
def dismissItem (items : List StoreInboxItem) (id : String) (now : ℤ) :
    Except String (List StoreInboxItem) :=
  match items.find? (fun i => i.id == id) with
  | none => .ok items
  | some _ =>
      .ok (items.map (fun i =>
        if i.id == id then { i with status := .dismissed, updatedAt := now } else i))

/-- `convertToTodo` from `src/stores/categoriesStore.ts`: when the item
is absent from the snapshot it throws `Error('Inbox item not found')`;
otherwise it creates a todo from the caller data with provenance
`source = inbox`, `sourceId = id`, then marks the item converted.
`todoData` carries the caller-supplied todo fields; the store assigns
`freshTodoId` to the created document. -/
def convertToTodo (items : List StoreInboxItem) (todos : List Todo) (id : String)
    (todoData : Todo) (freshTodoId : String) (now : ℤ) :
    Except String (List StoreInboxItem × List Todo × String) :=
  match items.find? (fun i => i.id == id) with
  | none => .error "Inbox item not found"
  | some _ =>
      let newTodos := todos ++
        [{ todoData with id := freshTodoId, source := "inbox",
                         sourceId := some id, updatedAt := now }]
      let newItems := items.map (fun i =>
        if i.id == id then
          { i with status := .converted, convertedToId := some freshTodoId,
                   convertedAt := some now, updatedAt := now }
        else i)
      .ok (newItems, newTodos, freshTodoId)

end InboxStore

/-- C8 counterexample: `convertToTodo` on an id absent from the
snapshot throws `Error('Inbox item not found')` instead of completing
as a silent no-op (dismiss, update and delete do no-op, see the
amended theorem). -/
theorem notfound_convert_counterexample :
    InboxStore.convertToTodo [] [] "x" ⟨"d", none, .pending, "manual", none, 0⟩ "t" 0 =
      .error "Inbox item not found" := by
  rfl

/-- C8 amended: a core mutation invoked with an id absent from the
current in-memory snapshot is a silent no-op for `dismissItem`,
`updateTodo` and `deleteTodo` (state unchanged, no error), while
`convertToTodo` raises `Error('Inbox item not found')`. -/
theorem notfound_ops_spec (todos : List Todo) (items : List StoreInboxItem)
    (id : String) (upd : Todo → Todo) (now : ℤ) (todoData : Todo)
    (freshTodoId : String)
    (hT : ∀ t ∈ todos, t.id ≠ id) (hI : ∀ i ∈ items, i.id ≠ id) :
    TodosStore.updateTodo todos id upd now = .ok todos ∧
    TodosStore.deleteTodo todos id = .ok todos ∧
    InboxStore.dismissItem items id now = .ok items ∧
    InboxStore.convertToTodo items todos id todoData freshTodoId now =
      .error "Inbox item not found" := by
  have hfT : todos.find? (fun t => t.id == id) = none :=
    List.find?_eq_none.mpr (fun t ht => by simpa using hT t ht)
  have hfI : items.find? (fun i => i.id == id) = none :=
    List.find?_eq_none.mpr (fun i hi => by simpa using hI i hi)
  refine ⟨?_, ?_, ?_, ?_⟩
  · unfold TodosStore.updateTodo
    rw [hfT]
  · unfold TodosStore.deleteTodo
    rw [hfT]
  · unfold InboxStore.dismissItem
    rw [hfI]
  · unfold InboxStore.convertToTodo
    rw [hfI]

/-- Witness for `notfound_ops_spec` on concrete snapshots. -/
theorem notfound_ops_spec_witness :
    TodosStore.updateTodo [⟨"a", none, .pending, "manual", none, 0⟩] "x" id 9 =
      .ok [⟨"a", none, .pending, "manual", none, 0⟩] ∧
    TodosStore.deleteTodo [⟨"a", none, .pending, "manual", none, 0⟩] "x" =
      .ok [⟨"a", none, .pending, "manual", none, 0⟩] ∧
    InboxStore.dismissItem [⟨"i", .pending, none, none, 0⟩] "x" 9 =
      .ok [⟨"i", .pending, none, none, 0⟩] ∧
    InboxStore.convertToTodo [⟨"i", .pending, none, none, 0⟩]
        [⟨"a", none, .pending, "manual", none, 0⟩] "x"
        ⟨"d", none, .pending, "manual", none, 0⟩ "t" 9 =
      .error "Inbox item not found" :=
  notfound_ops_spec [⟨"a", none, .pending, "manual", none, 0⟩]
    [⟨"i", .pending, none, none, 0⟩] "x" id 9
    ⟨"d", none, .pending, "manual", none, 0⟩ "t" (by decide) (by decide)

/-- The fields of a Slack message event consumed by
`src/api/slack/webhook.ts`. -/
structure SlackMsg where
  text : String
  user : String
  channel : String
  ts : String
deriving DecidableEq, Repr

/-- An inbox document as written by the `api` webhook handler
(`createInboxItem` in `src/api/slack/webhook.ts`); the serialized
original payload and the parsed source date are store metadata carried
along unchanged and are represented by the message itself. -/
structure ApiInboxItem where
  source : String
  status : String
  title : String
  description : String
  originalContent : SlackMsg
  sourceId : String
  sourceSender : String
  sourceChannel : String
deriving DecidableEq, Repr

namespace ApiWebhook

/-- The document `createInboxItem` in `src/api/slack/webhook.ts`
inserts for a message. -/
def mkInboxItem (m : SlackMsg) : ApiInboxItem :=
  { source := "slack", status := "pending",
    title := m.text.take 100 ++ (if 100 < m.text.length then "..." else ""),
    description := m.text, originalContent := m, sourceId := m.ts,
    sourceSender := m.user, sourceChannel := m.channel }

/-- `createInboxItem` from `src/api/slack/webhook.ts`: query the user's
inbox for an item with the message's `ts` as `sourceId`; discard the
arrival when one exists, insert otherwise. -/
def createInboxItem (inbox : List ApiInboxItem) (m : SlackMsg) : List ApiInboxItem :=
  if inbox.any (fun i => i.sourceId == m.ts) then inbox
  else inbox ++ [mkInboxItem m]

/-- `verifySlackSignature` from `src/api/slack/webhook.ts`.  The
HMAC-SHA256 hex digest is the external crypto primitive `hmacHex`
(keyed by the secret, applied to the base string); the two headers are
`none` when absent, and the timestamp header carries its `parseInt`
value.  The final comparison is modelled as string equality
(`timingSafeEqual` differs only in timing, and in throwing on
length mismatch). -/
def verifySlackSignature (hmacHex : String → String → String)
    (signingSecret : String) (now : ℤ) (timestamp : Option ℤ)
    (slackSignature : Option String) (body : String) : Bool :=
  if signingSecret == "" then true
  else
    match timestamp, slackSignature with
    | some ts, some sig =>
        if 300 < (now - ts).natAbs then false
        else ("v0=" ++ hmacHex signingSecret ("v0:" ++ toString ts ++ ":" ++ body)) == sig
    | _, _ => false

end ApiWebhook

/-- The fields of a Slack message event consumed by
`src/functions/src/slack/webhook.ts` (sender and channel names already
resolved). -/
structure FnSlackMsg where
  text : String
  senderName : String
  channelName : String
  channelId : String
  timestamp : String
  teamId : String
deriving DecidableEq, Repr

/-- An inbox document as written by the `functions` webhook handler;
the parsed source date, the permalink URL and the serialized payload
are metadata carried along unchanged and are represented by the
message itself. -/
structure FnInboxItem where
  source : String
  sourceId : String
  title : String
  description : String
  status : String
  sourceChannel : String
  sourceSender : String
  originalContent : FnSlackMsg
deriving DecidableEq, Repr

namespace FnWebhook

/-- The document `createInboxItem` in
`src/functions/src/slack/webhook.ts` inserts for a message; its
deduplication key is `channelId-timestamp`. -/
def mkInboxItem (m : FnSlackMsg) : FnInboxItem :=
  { source := "slack", sourceId := m.channelId ++ "-" ++ m.timestamp,
    title := if 100 < m.text.length then m.text.take 100 ++ "..." else m.text,
    description := m.text, status := "pending",
    sourceChannel := m.channelName, sourceSender := m.senderName,
    originalContent := m }

/-- `createInboxItem` from `src/functions/src/slack/webhook.ts`. -/
def createInboxItem (inbox : List FnInboxItem) (m : FnSlackMsg) : List FnInboxItem :=
  if inbox.any (fun i => i.sourceId == (mkInboxItem m).sourceId) then inbox
  else inbox ++ [mkInboxItem m]

/-- `verifySlackSignature` from `src/functions/src/slack/webhook.ts`
(the caller has already checked that the secret and both headers are
present). -/
def verifySlackSignature (hmacHex : String → String → String)
    (signingSecret : String) (signature : String) (timestamp : ℤ)
    (body : String) (now : ℤ) : Bool :=
  if 300 < (now - timestamp).natAbs then false
  else ("v0=" ++ hmacHex signingSecret ("v0:" ++ toString timestamp ++ ":" ++ body)) == signature

end FnWebhook

/-- Count of api-inbox items carrying a given `sourceId` after one
delivery: a first item appears, further deliveries are discarded. -/
theorem api_create_countP (inbox : List ApiInboxItem) (m : SlackMsg) :
    (ApiWebhook.createInboxItem inbox m).countP (fun i => i.sourceId == m.ts) =
      max 1 (inbox.countP (fun i => i.sourceId == m.ts)) := by
  unfold ApiWebhook.createInboxItem
  by_cases h : inbox.any (fun i => i.sourceId == m.ts)
  · rw [if_pos h]
    have hpos : 0 < inbox.countP (fun i => i.sourceId == m.ts) := by
      rw [List.countP_pos_iff]
      simpa [List.any_eq_true] using h
    omega
  · rw [if_neg h]
    have h0 : inbox.countP (fun i => i.sourceId == m.ts) = 0 := by
      rw [List.countP_eq_zero]
      intro a ha
      rw [List.any_eq_true] at h
      push_neg at h
      simpa using h a ha
    rw [List.countP_append, h0]
    simp [ApiWebhook.mkInboxItem]

/-- Count of functions-inbox items carrying a given `sourceId` after
one delivery. -/
theorem fn_create_countP (inbox : List FnInboxItem) (m : FnSlackMsg) :
    (FnWebhook.createInboxItem inbox m).countP
        (fun i => i.sourceId == (FnWebhook.mkInboxItem m).sourceId) =
      max 1 (inbox.countP (fun i => i.sourceId == (FnWebhook.mkInboxItem m).sourceId)) := by
  unfold FnWebhook.createInboxItem
  by_cases h : inbox.any (fun i => i.sourceId == (FnWebhook.mkInboxItem m).sourceId)
  · rw [if_pos h]
    have hpos : 0 < inbox.countP (fun i => i.sourceId == (FnWebhook.mkInboxItem m).sourceId) := by
      rw [List.countP_pos_iff]
      simpa [List.any_eq_true] using h
    omega
  · rw [if_neg h]
    have h0 : inbox.countP (fun i => i.sourceId == (FnWebhook.mkInboxItem m).sourceId) = 0 := by
      rw [List.countP_eq_zero]
      intro a ha
      rw [List.any_eq_true] at h
      push_neg at h
      simpa using h a ha
    rw [List.countP_append, h0]
    simp

/-- C7: delivering two arrivals with the same `sourceId` to a user's
inbox leaves exactly one matching item when none existed before, in
both webhook handlers; and one sequential delivery never pushes the
per-`sourceId` item count above one. -/
theorem inbox_dedup_spec (inbox : List ApiInboxItem) (finbox : List FnInboxItem)
    (m₁ m₂ : SlackMsg) (f₁ f₂ : FnSlackMsg)
    (hm : m₂.ts = m₁.ts)
    (hf : (FnWebhook.mkInboxItem f₂).sourceId = (FnWebhook.mkInboxItem f₁).sourceId)
    (h0 : inbox.countP (fun i => i.sourceId == m₁.ts) = 0)
    (hf0 : finbox.countP (fun i => i.sourceId == (FnWebhook.mkInboxItem f₁).sourceId) = 0) :
    (ApiWebhook.createInboxItem (ApiWebhook.createInboxItem inbox m₁) m₂).countP
        (fun i => i.sourceId == m₁.ts) = 1 ∧
    (FnWebhook.createInboxItem (FnWebhook.createInboxItem finbox f₁) f₂).countP
        (fun i => i.sourceId == (FnWebhook.mkInboxItem f₁).sourceId) = 1 ∧
    ∀ (inbox₂ : List ApiInboxItem) (m : SlackMsg),
      inbox₂.countP (fun i => i.sourceId == m.ts) ≤ 1 →
      (ApiWebhook.createInboxItem inbox₂ m).countP (fun i => i.sourceId == m.ts) ≤ 1 := by
  refine ⟨?_, ?_, ?_⟩
  · rw [← hm, api_create_countP, hm, api_create_countP, h0]
    rfl
  · rw [← hf, fn_create_countP, hf, fn_create_countP, hf0]
    rfl
  · intro inbox₂ m hcount
    rw [api_create_countP]
    omega

/-- Witness for `inbox_dedup_spec`: the same message delivered twice
into an empty inbox, in both handlers. -/
theorem inbox_dedup_spec_witness :
    (ApiWebhook.createInboxItem (ApiWebhook.createInboxItem [] ⟨"hello", "u", "c", "1.2"⟩)
        ⟨"hello", "u", "c", "1.2"⟩).countP
        (fun i => i.sourceId == SlackMsg.ts ⟨"hello", "u", "c", "1.2"⟩) = 1 ∧
    (FnWebhook.createInboxItem (FnWebhook.createInboxItem [] ⟨"hi", "s", "cn", "cid", "1.2", "t"⟩)
        ⟨"hi", "s", "cn", "cid", "1.2", "t"⟩).countP
        (fun i => i.sourceId ==
          (FnWebhook.mkInboxItem ⟨"hi", "s", "cn", "cid", "1.2", "t"⟩).sourceId) = 1 ∧
    ∀ (inbox₂ : List ApiInboxItem) (m : SlackMsg),
      inbox₂.countP (fun i => i.sourceId == m.ts) ≤ 1 →
      (ApiWebhook.createInboxItem inbox₂ m).countP (fun i => i.sourceId == m.ts) ≤ 1 :=
  inbox_dedup_spec [] [] ⟨"hello", "u", "c", "1.2"⟩ ⟨"hello", "u", "c", "1.2"⟩
    ⟨"hi", "s", "cn", "cid", "1.2", "t"⟩ ⟨"hi", "s", "cn", "cid", "1.2", "t"⟩
    rfl rfl (by decide) (by decide)

/-- C9: a request whose timestamp header differs from the current time
by more than 300 seconds fails signature verification in both webhook
handlers, whatever the supplied signature and whatever digest the
HMAC-SHA256 primitive would produce (`hsec`: the api handler skips
verification entirely when no signing secret is configured, so a
configured secret is assumed there). -/
theorem stale_timestamp_rejected (hmacHex : String → String → String)
    (secret : String) (now ts : ℤ) (sig body : String)
    (hsec : secret ≠ "") (hstale : 300 < (now - ts).natAbs) :
    ApiWebhook.verifySlackSignature hmacHex secret now (some ts) (some sig) body = false ∧
    FnWebhook.verifySlackSignature hmacHex secret sig ts body now = false := by
  constructor
  · unfold ApiWebhook.verifySlackSignature
    have hs : (secret == "") = false := by
      simpa using hsec
    rw [hs]
    simp only [Bool.false_eq_true, if_false]
    rw [if_pos hstale]
  · unfold FnWebhook.verifySlackSignature
    rw [if_pos hstale]

/-- Witness for `stale_timestamp_rejected`: a request 301 seconds old. -/
theorem stale_timestamp_rejected_witness :
    ApiWebhook.verifySlackSignature (fun _ _ => "") "s" 301 (some 0) (some "x") "b" = false ∧
    FnWebhook.verifySlackSignature (fun _ _ => "") "s" "x" 0 "b" 301 = false :=
  stale_timestamp_rejected (fun _ _ => "") "s" 301 0 "x" "b" (by decide) (by decide)

namespace TrackingStore

/-- The accumulated streak is carried through the walk unchanged. -/
theorem streakWalk_shift (cs : List DailyCheckIn) (cur : ℤ) (a b : ℕ) :
    streakWalk cs cur (a + b) = streakWalk cs cur a + b := by
  induction cs generalizing cur a with
  | nil => rfl
  | cons c rest ih =>
    simp only [streakWalk]
    by_cases h1 : c.date = cur
    · rw [if_pos h1, if_pos h1]
      have hab : a + b + 1 = (a + 1) + b := by omega
      rw [hab, ih]
    · rw [if_neg h1, if_neg h1]
      by_cases h2 : c.date < cur
      · rw [if_pos h2, if_pos h2]
      · rw [if_neg h2, if_neg h2, ih]

/-- On a descending list the walk returns the length of the maximal
run of days `cur, cur - 1, …` each covered by some record: every day
within the result is covered, the day right below it is not. -/
theorem streakWalk_spec (cs : List DailyCheckIn) (cur : ℤ)
    (hs : List.Sorted dateDesc cs) :
    (∀ j : ℕ, j < streakWalk cs cur 0 → ∃ c ∈ cs, c.date = cur - (j : ℤ)) ∧
    ¬ ∃ c ∈ cs, c.date = cur - (streakWalk cs cur 0 : ℤ) := by
  induction cs generalizing cur with
  | nil =>
    constructor
    · intro j hj
      simp [streakWalk] at hj
    · simp
  | cons c rest ih =>
    rw [List.sorted_cons] at hs
    obtain ⟨hall, hrest⟩ := hs
    by_cases h1 : c.date = cur
    · have hw : streakWalk (c :: rest) cur 0 = streakWalk rest (cur - 1) 0 + 1 := by
        simp only [streakWalk, if_pos h1]
        exact streakWalk_shift rest (cur - 1) 0 1
      obtain ⟨ihB, ihC⟩ := ih (cur - 1) hrest
      constructor
      · intro j hj
        rw [hw] at hj
        cases j with
        | zero => exact ⟨c, List.mem_cons_self c rest, by simpa using h1⟩
        | succ j' =>
          have hj' : j' < streakWalk rest (cur - 1) 0 := by omega
          obtain ⟨c', hc'm, hc'd⟩ := ihB j' hj'
          refine ⟨c', List.mem_cons_of_mem _ hc'm, ?_⟩
          push_cast
          linarith
      · rw [hw]
        rintro ⟨c', hc'm, hc'd⟩
        rcases List.mem_cons.mp hc'm with rfl | hmem
        · rw [h1] at hc'd
          omega
        · apply ihC
          refine ⟨c', hmem, ?_⟩
          push_cast at hc'd ⊢
          linarith
    · by_cases h2 : c.date < cur
      · have hw : streakWalk (c :: rest) cur 0 = 0 := by
          simp [streakWalk, h1, h2]
        constructor
        · intro j hj
          rw [hw] at hj
          omega
        · rw [hw]
          rintro ⟨c', hc'm, hc'd⟩
          simp at hc'd
          rcases List.mem_cons.mp hc'm with rfl | hmem
          · exact h1 hc'd
          · have hle : c'.date ≤ c.date := hall c' hmem
            linarith
      · have h3 : cur < c.date := by omega
        have hw : streakWalk (c :: rest) cur 0 = streakWalk rest cur 0 := by
          simp [streakWalk, h1, h2]
        obtain ⟨ihB, ihC⟩ := ih cur hrest
        constructor
        · intro j hj
          rw [hw] at hj
          obtain ⟨c', hm, hd⟩ := ihB j hj
          exact ⟨c', List.mem_cons_of_mem _ hm, hd⟩
        · rw [hw]
          rintro ⟨c', hc'm, hc'd⟩
          rcases List.mem_cons.mp hc'm with rfl | hmem
          · have hnn : (0 : ℤ) ≤ (streakWalk rest cur 0 : ℤ) := Int.natCast_nonneg _
            linarith
          · exact ihC ⟨c', hmem, hc'd⟩

/-- The initial empty-list guard of `getStreakForGoal` coincides with
what the walk returns on the empty list. -/
theorem getStreakForGoal_eq_walk (checkIns : List DailyCheckIn) (goalId : String)
    (today : ℤ) :
    getStreakForGoal checkIns goalId today =
      streakWalk
        (List.insertionSort dateDesc
          ((getCheckInsForGoal checkIns goalId).filter (fun c => c.completed)))
        today 0 := by
  simp only [getStreakForGoal]
  split
  · next h => rw [List.length_eq_zero.mp h]; rfl
  · rfl

/-- C3: `currentStreak(goalId)` is the count of consecutive days with
a completed record ending at (and including) today: every one of the
`streak` days `today, today - 1, …` carries a completed record of the
goal, and the day immediately below the run does not — in particular
the streak is 0 when no completed record matches today. -/
theorem currentStreak_spec (checkIns : List DailyCheckIn) (goalId : String)
    (today : ℤ) :
    (∀ k : ℕ, k < getStreakForGoal checkIns goalId today →
      ∃ c ∈ checkIns, c.goalId = goalId ∧ c.completed = true ∧
        c.date = today - (k : ℤ)) ∧
    ¬ ∃ c ∈ checkIns, c.goalId = goalId ∧ c.completed = true ∧
        c.date = today - (getStreakForGoal checkIns goalId today : ℤ) := by
  have hmem : ∀ c : DailyCheckIn,
      c ∈ List.insertionSort dateDesc
        ((getCheckInsForGoal checkIns goalId).filter (fun c => c.completed)) ↔
      c ∈ checkIns ∧ c.goalId = goalId ∧ c.completed = true := by
    intro c
    rw [(List.perm_insertionSort dateDesc _).mem_iff, List.mem_filter]
    unfold getCheckInsForGoal
    rw [List.mem_filter]
    simp [and_assoc]
  have hsorted : List.Sorted dateDesc
      (List.insertionSort dateDesc
        ((getCheckInsForGoal checkIns goalId).filter (fun c => c.completed))) :=
    List.sorted_insertionSort dateDesc _
  obtain ⟨hB, hC⟩ := streakWalk_spec _ today hsorted
  rw [getStreakForGoal_eq_walk]
  constructor
  · intro k hk
    obtain ⟨c, hm, hd⟩ := hB k hk
    obtain ⟨h1, h2, h3⟩ := (hmem c).mp hm
    exact ⟨c, h1, h2, h3, hd⟩
  · rintro ⟨c, hm, hgid, hcmp, hd⟩
    exact hC ⟨c, (hmem c).mpr ⟨hm, hgid, hcmp⟩, hd⟩

end TrackingStore

/-- Goal lifecycle status (`GoalStatus` in `src/types/index.ts`). -/
inductive GoalStatus
  | notStarted
  | inProgress
  | completed
  | onHold
  | cancelled
deriving DecidableEq, Repr

/-- A goal (`Goal` in `src/types/index.ts`), restricted to the fields
`calculateProgress` in `src/hooks/useGoalProgress.ts` reads. -/
structure Goal where
  id : String
  parentGoalId : Option String
  status : GoalStatus
  progress : ℕ
deriving DecidableEq, Repr

namespace GoalProgress

/-- `calculateProgress` from `src/hooks/useGoalProgress.ts`.  The
source recursion has no termination guard (a cyclic parent chain
recurses unboundedly, a known defect class of the program), so the
embedding threads an explicit fuel argument; `0` on fuel exhaustion is
an artifact never reached from `effectiveProgress` on an acyclic goal
graph (see `calculateProgress_fuel_stable`). -/
def calculateProgress (goals : List Goal) (todos : List Todo) :
    ℕ → String → ℕ
  | 0, _ => 0
  | fuel + 1, goalId =>
    match goals.find? (fun g => g.id == goalId) with
    | none => 0
    | some goal =>
      let childGoals := goals.filter (fun g => g.parentGoalId == some goalId)
      let linkedTodos := todos.filter (fun t => t.goalId == some goalId)
      if 0 < childGoals.length then
        jsRound
          (((childGoals.foldl
            (fun sum child => sum + calculateProgress goals todos fuel child.id) 0 : ℕ) : ℚ)
            / (childGoals.length : ℚ))
      else if 0 < linkedTodos.length then
        jsRound
          (((linkedTodos.filter (fun t => t.status == TodoStatus.completed)).length : ℚ)
            / (linkedTodos.length : ℚ) * 100)
      else if goal.status == GoalStatus.completed then 100
      else if goal.status == GoalStatus.notStarted then 0
      else if goal.status == GoalStatus.cancelled then 0
      else goal.progress

/-- The effective progress of a goal: `calculateProgress` with enough
fuel for any acyclic goal graph. -/
def effectiveProgress (goals : List Goal) (todos : List Todo) (goalId : String) : ℕ :=
  calculateProgress goals todos goals.length goalId

/-- Acyclicity of the child relation, witnessed by a rank function
that strictly decreases from parents to children. -/
def ChildRank (goals : List Goal) (r : String → ℕ) : Prop :=
  ∀ g ∈ goals, ∀ c ∈ goals, c.parentGoalId = some g.id → r c.id < r g.id

/-- Folding an addition over pointwise-equal summand functions. -/
theorem foldl_add_congr {α : Type} (l : List α) (f g : α → ℕ)
    (h : ∀ x ∈ l, f x = g x) (init : ℕ) :
    l.foldl (fun s x => s + f x) init = l.foldl (fun s x => s + g x) init := by
  induction l generalizing init with
  | nil => rfl
  | cons a t ih =>
    simp only [List.foldl_cons]
    rw [h a (List.mem_cons_self a t)]
    exact ih (fun x hx => h x (List.mem_cons_of_mem a hx)) _

/-- The `reduce`-style accumulation is the sum of the mapped list. -/
theorem foldl_add_eq_sum {α : Type} (l : List α) (f : α → ℕ) (init : ℕ) :
    l.foldl (fun s x => s + f x) init = init + (l.map f).sum := by
  induction l generalizing init with
  | nil => simp
  | cons a t ih =>
    simp only [List.foldl_cons, List.map_cons, List.sum_cons]
    rw [ih]
    omega

/-- On a goal graph admitting a rank, `calculateProgress` is the same
for every fuel exceeding the goal's rank: the fuel is an embedding
artifact, not part of the program's behaviour. -/
theorem calculateProgress_fuel_stable (goals : List Goal) (todos : List Todo)
    (r : String → ℕ) (hr : ChildRank goals r) :
    ∀ (fuel₁ : ℕ) (fuel₂ : ℕ) (gid : String), r gid < fuel₁ → r gid < fuel₂ →
      calculateProgress goals todos fuel₁ gid = calculateProgress goals todos fuel₂ gid := by
  intro fuel₁
  induction fuel₁ with
  | zero => intro fuel₂ gid h₁ _; omega
  | succ f ih =>
    intro fuel₂ gid h₁ h₂
    obtain ⟨f₂, rfl⟩ : ∃ f₂, fuel₂ = f₂ + 1 := ⟨fuel₂ - 1, by omega⟩
    cases hfind : goals.find? (fun g => g.id == gid) with
    | none => simp only [calculateProgress, hfind]
    | some goal =>
      have hgoal_mem : goal ∈ goals := List.mem_of_find?_eq_some hfind
      have hgoal_id : goal.id = gid := by
        have := List.find?_some hfind
        simpa using this
      simp only [calculateProgress, hfind]
      by_cases hc : 0 < (goals.filter (fun g => g.parentGoalId == some gid)).length
      · rw [if_pos hc, if_pos hc]
        congr 2
        norm_cast
        apply foldl_add_congr
        intro c hcmem
        have hcg : c ∈ goals ∧ (c.parentGoalId == some gid) = true :=
          List.mem_filter.mp hcmem
        have hrank_c : r c.id < r gid := by
          have hpar : c.parentGoalId = some goal.id := by
            rw [hgoal_id]
            simpa using hcg.2
          simpa [hgoal_id] using hr goal hgoal_mem c hcg.1 hpar
        exact ih f₂ c.id (by omega) (by omega)
      · rw [if_neg hc, if_neg hc]

/-- C1: a goal with at least one child goal takes as its effective
progress the unweighted arithmetic mean of its children's recursively
computed effective progress, rounded half-up to the nearest integer
(`roundDiv`), whatever its linked todos, status or stored manual
progress; the goal graph is assumed acyclic (it admits a rank
function), which also lets the rank stay below the goal count. -/
theorem effectiveProgress_children_avg (goals : List Goal) (todos : List Todo)
    (goalId : String) (goal : Goal)
    (hrank : ∃ r : String → ℕ, ChildRank goals r ∧ ∀ g ∈ goals, r g.id < goals.length)
    (hfind : goals.find? (fun g => g.id == goalId) = some goal)
    (hchild : 0 < (goals.filter (fun g => g.parentGoalId == some goalId)).length) :
    effectiveProgress goals todos goalId =
      roundDiv
        ((goals.filter (fun g => g.parentGoalId == some goalId)).map
          (fun c => effectiveProgress goals todos c.id)).sum
        (goals.filter (fun g => g.parentGoalId == some goalId)).length := by
  obtain ⟨r, hr, hbound⟩ := hrank
  have hgoal_mem : goal ∈ goals := List.mem_of_find?_eq_some hfind
  have hgoal_id : goal.id = goalId := by simpa using List.find?_some hfind
  obtain ⟨m, hm⟩ : ∃ m, goals.length = m + 1 := by
    have hpos : 0 < goals.length := List.length_pos.mpr (List.ne_nil_of_mem hgoal_mem)
    exact ⟨goals.length - 1, by omega⟩
  have hstep : ∀ c ∈ goals.filter (fun g => g.parentGoalId == some goalId),
      calculateProgress goals todos m c.id = effectiveProgress goals todos c.id := by
    intro c hcmem
    obtain ⟨hcg, hcp⟩ := List.mem_filter.mp hcmem
    have hpar : c.parentGoalId = some goal.id := by
      rw [hgoal_id]
      simpa using hcp
    have hrc : r c.id < r goalId := by
      have h := hr goal hgoal_mem c hcg hpar
      rwa [hgoal_id] at h
    have hb : r goalId < goals.length := by
      have h := hbound goal hgoal_mem
      rwa [hgoal_id] at h
    unfold effectiveProgress
    exact calculateProgress_fuel_stable goals todos r hr m goals.length c.id
      (by omega) (by omega)
  have hunfold : effectiveProgress goals todos goalId
      = calculateProgress goals todos (m + 1) goalId := by
    unfold effectiveProgress
    rw [hm]
  rw [hunfold]
  simp only [calculateProgress, hfind]
  rw [if_pos hchild]
  have h1 : (goals.filter (fun g => g.parentGoalId == some goalId)).foldl
        (fun sum child => sum + calculateProgress goals todos m child.id) 0
      = (goals.filter (fun g => g.parentGoalId == some goalId)).foldl
        (fun sum child => sum + effectiveProgress goals todos child.id) 0 :=
    foldl_add_congr _ _ _ hstep 0
  rw [h1, foldl_add_eq_sum, Nat.zero_add]
  apply jsRound_div_eq_roundDiv
  omega

/-- The concrete goal graph used by the aggregation witness: a parent
with two leaf children whose manual progress is 40 and 41. -/
def sampleGoals : List Goal :=
  [⟨"p", none, .inProgress, 0⟩, ⟨"a", some "p", .inProgress, 40⟩,
   ⟨"b", some "p", .inProgress, 41⟩]

/-- Witness for `effectiveProgress_children_avg` on `sampleGoals`. -/
theorem effectiveProgress_children_avg_witness :
    effectiveProgress sampleGoals [] "p" =
      roundDiv
        ((sampleGoals.filter (fun g => g.parentGoalId == some "p")).map
          (fun c => effectiveProgress sampleGoals [] c.id)).sum
        (sampleGoals.filter (fun g => g.parentGoalId == some "p")).length :=
  effectiveProgress_children_avg sampleGoals [] "p" ⟨"p", none, .inProgress, 0⟩
    ⟨fun s => if s = "p" then 1 else 0, by unfold ChildRank sampleGoals; decide,
      by unfold sampleGoals; decide⟩
    (by unfold sampleGoals; decide) (by unfold sampleGoals; decide)

end GoalProgress

/-!
Calendar model backing the recurrence calculator.  A date is its day
number: day 0 is January 1 of year 0 of the proleptic Gregorian
calendar that ECMAScript `Date` uses.  Months are indexed globally:
month `m` is calendar month `m % 12` (0 = January) of year `m / 12`,
so ECMAScript's `setMonth`/`setDate`/`setFullYear` (`MakeDay`: anchor
at the first day of the target month, then add `day - 1` days, letting
out-of-range days roll over) become arithmetic on `firstDay`.
-/

namespace JsDate

/-- Gregorian leap-year rule. -/
def isLeapYear (y : ℤ) : Bool :=
  (y % 4 == 0 && y % 100 != 0) || y % 400 == 0

/-- Number of days of global month `m`. -/
def daysInMonth (m : ℤ) : ℤ :=
  let mm := m % 12
  if mm = 1 then (if isLeapYear (m / 12) then 29 else 28)
  else if mm = 3 ∨ mm = 5 ∨ mm = 8 ∨ mm = 10 then 30
  else 31

theorem daysInMonth_bounds (m : ℤ) : 28 ≤ daysInMonth m ∧ daysInMonth m ≤ 31 := by
  unfold daysInMonth
  dsimp only
  split
  · split <;> omega
  · split <;> omega

/-- Day number of the first day of global month `m`. -/
def firstDay (m : ℤ) : ℤ :=
  if 0 ≤ m then ((List.range m.toNat).map (fun (k : ℕ) => daysInMonth (k : ℤ))).sum
  else -(((List.range (-m).toNat).map (fun (k : ℕ) => daysInMonth (-(k : ℤ) - 1))).sum)

theorem firstDay_zero : firstDay 0 = 0 := rfl

/-- Consecutive months differ by the month length. -/
theorem firstDay_succ (m : ℤ) : firstDay (m + 1) = firstDay m + daysInMonth m := by
  rcases le_or_lt 0 m with hm | hm
  · have h1 : (0 : ℤ) ≤ m + 1 := by omega
    have h2 : (m + 1).toNat = m.toNat + 1 := by omega
    rw [firstDay, firstDay, if_pos h1, if_pos hm, h2, List.range_succ, List.map_append,
      List.sum_append]
    simp [Int.toNat_of_nonneg hm]
  · rcases eq_or_lt_of_le (by omega : m + 1 ≤ 0) with h0 | hneg
    · have hm1 : m = -1 := by omega
      subst hm1
      show firstDay 0 = firstDay (-1) + daysInMonth (-1)
      rw [firstDay_zero, firstDay, if_neg (by omega)]
      norm_num [List.range_succ]
    · have h1 : ¬ (0 : ℤ) ≤ m + 1 := by omega
      have h2 : ¬ (0 : ℤ) ≤ m := by omega
      rw [firstDay, firstDay, if_neg h1, if_neg h2]
      have h3 : (-m).toNat = (-(m + 1)).toNat + 1 := by omega
      rw [h3, List.range_succ, List.map_append, List.sum_append]
      have h4 : (-((-(m + 1)).toNat : ℤ) - 1) = m := by omega
      simp only [List.map_cons, List.map_nil, List.sum_cons, List.sum_nil, add_zero]
      rw [h4]
      ring

/-- Each month ahead adds at least 28 days. -/
theorem firstDay_add_nat (m : ℤ) (k : ℕ) :
    firstDay m + 28 * k ≤ firstDay (m + k) := by
  induction k with
  | zero => simp
  | succ n ih =>
    have hs : firstDay (m + n + 1) = firstDay (m + n) + daysInMonth (m + n) :=
      firstDay_succ (m + n)
    have hb := daysInMonth_bounds (m + n)
    push_cast
    push_cast at ih
    have harr : m + (n + 1 : ℤ) = m + n + 1 := by ring
    rw [harr, hs]
    omega

/-- `firstDay` is monotone in the month index. -/
theorem firstDay_le_of_le (m m' : ℤ) (h : m ≤ m') : firstDay m ≤ firstDay m' := by
  have hk := firstDay_add_nat m (m' - m).toNat
  have he : m + ((m' - m).toNat : ℤ) = m' := by omega
  rw [he] at hk
  omega

/-- Upward search for the month containing day `d`, starting at a
month known to begin on or before `d`. -/
def monthOfAuxUp : ℕ → ℤ → ℤ → ℤ
  | 0, mo, _ => mo
  | fuel + 1, mo, d =>
    if firstDay (mo + 1) ≤ d then monthOfAuxUp fuel (mo + 1) d else mo

/-- Downward search for the month containing day `d`, starting at a
month known to end after `d`. -/
def monthOfAuxDown : ℕ → ℤ → ℤ → ℤ
  | 0, mo, _ => mo
  | fuel + 1, mo, d =>
    if d < firstDay mo then monthOfAuxDown fuel (mo - 1) d else mo

/-- Global index of the month containing day `d`; 28-day months make
`|d| + 1` search steps always sufficient. -/
def monthOf (d : ℤ) : ℤ :=
  if 0 ≤ d then monthOfAuxUp (d.toNat + 1) 0 d
  else monthOfAuxDown ((-d).toNat + 1) 0 d

theorem monthOfAuxUp_spec (fuel : ℕ) :
    ∀ (mo d : ℤ), firstDay mo ≤ d → d < firstDay (mo + fuel + 1) →
      firstDay (monthOfAuxUp fuel mo d) ≤ d ∧
      d < firstDay (monthOfAuxUp fuel mo d + 1) := by
  induction fuel with
  | zero =>
    intro mo d h1 h2
    constructor
    · simpa [monthOfAuxUp] using h1
    · simpa [monthOfAuxUp] using h2
  | succ f ih =>
    intro mo d h1 h2
    simp only [monthOfAuxUp]
    by_cases hstep : firstDay (mo + 1) ≤ d
    · rw [if_pos hstep]
      apply ih (mo + 1) d hstep
      have harr : mo + 1 + (f : ℤ) + 1 = mo + ((f : ℤ) + 1) + 1 := by ring
      rw [harr]
      push_cast at h2
      exact h2
    · rw [if_neg hstep]
      exact ⟨h1, by omega⟩

theorem monthOfAuxDown_spec (fuel : ℕ) :
    ∀ (mo d : ℤ), d < firstDay (mo + 1) → firstDay (mo - fuel) ≤ d →
      firstDay (monthOfAuxDown fuel mo d) ≤ d ∧
      d < firstDay (monthOfAuxDown fuel mo d + 1) := by
  induction fuel with
  | zero =>
    intro mo d h1 h2
    constructor
    · simpa [monthOfAuxDown] using h2
    · simpa [monthOfAuxDown] using h1
  | succ f ih =>
    intro mo d h1 h2
    simp only [monthOfAuxDown]
    by_cases hstep : d < firstDay mo
    · rw [if_pos hstep]
      apply ih (mo - 1) d
      · have harr : mo - 1 + 1 = mo := by ring
        rw [harr]
        exact hstep
      · have harr : mo - 1 - (f : ℤ) = mo - ((f : ℤ) + 1) := by ring
        rw [harr]
        push_cast at h2
        exact h2
    · rw [if_neg hstep]
      exact ⟨by omega, h1⟩

/-- `monthOf d` is the month whose span contains `d`. -/
theorem monthOf_spec (d : ℤ) :
    firstDay (monthOf d) ≤ d ∧ d < firstDay (monthOf d + 1) := by
  unfold monthOf
  split
  · next hd =>
    apply monthOfAuxUp_spec
    · rw [firstDay_zero]
      exact hd
    · have hk := firstDay_add_nat 0 (d.toNat + 2)
      rw [firstDay_zero] at hk
      have harr : (0 : ℤ) + ((d.toNat + 2 : ℕ) : ℤ) = 0 + (d.toNat + 1 : ℕ) + 1 := by
        push_cast
        ring
      rw [harr] at hk
      omega
  · next hd =>
    apply monthOfAuxDown_spec
    · have h1 := firstDay_succ 0
      have hb := daysInMonth_bounds 0
      rw [firstDay_zero] at h1
      have harr : (0 : ℤ) + 1 = 1 := by ring
      rw [harr] at h1 ⊢
      omega
    · have hk := firstDay_add_nat (0 - ((-d).toNat + 1 : ℕ)) ((-d).toNat + 1)
      have harr : (0 : ℤ) - ((-d).toNat + 1 : ℕ) + ((-d).toNat + 1 : ℕ) = 0 := by ring
      rw [harr, firstDay_zero] at hk
      omega

/-- A day at or past the start of month `M` lies in month `M` or later. -/
theorem monthOf_ge (M d : ℤ) (h : firstDay M ≤ d) : M ≤ monthOf d := by
  by_contra hcon
  have hle : monthOf d + 1 ≤ M := by omega
  have hmono := firstDay_le_of_le (monthOf d + 1) M hle
  have hspec := monthOf_spec d
  omega

/-- `Date.prototype.getDate`: the 1-based day of month of day `z`. -/
def getDate (z : ℤ) : ℤ := z - firstDay (monthOf z) + 1

/-- `setDate(n)`: re-anchor at day `n` of the current month
(ECMAScript `MakeDay`; out-of-range `n` rolls over). -/
def setDate (z n : ℤ) : ℤ := firstDay (monthOf z) + n - 1

/-- `setMonth(getMonth() + i)`: move `i` months keeping the 1-based
day of month, rolling over when the target month is shorter. -/
def addMonths (z i : ℤ) : ℤ := firstDay (monthOf z + i) + (getDate z - 1)

/-- `setDate(getDate() + n)`: move `n` days. -/
def addDays (z n : ℤ) : ℤ := setDate z (getDate z + n)

theorem addDays_eq (z n : ℤ) : addDays z n = z + n := by
  unfold addDays setDate getDate
  ring

theorem getDate_bounds (z : ℤ) :
    1 ≤ getDate z ∧ getDate z ≤ daysInMonth (monthOf z) := by
  have hs := monthOf_spec z
  have hsucc := firstDay_succ (monthOf z)
  unfold getDate
  omega

/-- Moving at least one month forward lands strictly later, in a month
at least `i` past the current one. -/
theorem addMonths_gt (z i : ℤ) (hi : 1 ≤ i) :
    z < addMonths z i ∧ monthOf z + i ≤ monthOf (addMonths z i) := by
  have hspec := monthOf_spec z
  have hdb := getDate_bounds z
  have hmono := firstDay_le_of_le (monthOf z + 1) (monthOf z + i) (by omega)
  have hz : z = firstDay (monthOf z) + (getDate z - 1) := by
    unfold getDate
    ring
  constructor
  · unfold addMonths
    omega
  · apply monthOf_ge
    unfold addMonths
    omega

end JsDate

/-- Recurrence frequency (`RecurrencePattern` in `src/types/index.ts`). -/
inductive Frequency
  | daily
  | weekly
  | monthly
  | yearly
deriving DecidableEq, Repr

/-- A recurrence rule (`RecurrencePattern` in `src/types/index.ts`);
`endDate` is a day number. -/
structure RecurrencePattern where
  frequency : Frequency
  interval : ℤ
  daysOfWeek : Option (List ℤ)
  dayOfMonth : Option ℤ
  endDate : Option ℤ
deriving DecidableEq, Repr

namespace TodosStore

open JsDate

/-- The frequency step of `getNextOccurrenceDate` (the `switch` block
in the todos store): the candidate next date before the end-date
check.  `if (pattern.dayOfMonth)` is JavaScript truthiness, so a
`dayOfMonth` of 0 is ignored like an absent one. -/
def stepDate (currentDate : ℤ) (p : RecurrencePattern) : ℤ :=
  match p.frequency with
  | .daily => addDays currentDate p.interval
  | .weekly => addDays currentDate (7 * p.interval)
  | .monthly =>
      let next := addMonths currentDate p.interval
      match p.dayOfMonth with
      | some v => if v ≠ 0 then setDate next v else next
      | none => next
  | .yearly => addMonths currentDate (12 * p.interval)

/-- `pattern.endDate && currentDate >= new Date(pattern.endDate)`. -/
def endedBefore (p : RecurrencePattern) (d : ℤ) : Bool :=
  match p.endDate with
  | some e => e ≤ d
  | none => false

/-- `pattern.endDate && next > new Date(pattern.endDate)`. -/
def exceedsEnd (p : RecurrencePattern) (d : ℤ) : Bool :=
  match p.endDate with
  | some e => e < d
  | none => false

/-- `getNextOccurrenceDate` from the todos store: `null` when the
series has ended, otherwise the stepped date. -/
def getNextOccurrenceDate (currentDate : ℤ) (p : RecurrencePattern) : Option ℤ :=
  if endedBefore p currentDate then none
  else
    let next := stepDate currentDate p
    if exceedsEnd p next then none
    else some next

end TodosStore

/-- C4 counterexample: with `endDate = fromDate + 1` and a daily step
of 1 the computed next date equals the end date exactly, and
`getNextOccurrenceDate` returns that date — the strict `>` bound does
not treat equality as series-ended, contrary to the claim. -/
theorem recurrence_end_equal_counterexample :
    RecurrencePattern.endDate ⟨.daily, 1, none, none, some 1⟩ = some 1 ∧
    TodosStore.stepDate 0 ⟨.daily, 1, none, none, some 1⟩ = 1 ∧
    TodosStore.getNextOccurrenceDate 0 ⟨.daily, 1, none, none, some 1⟩ = some 1 := by
  refine ⟨rfl, by decide, by decide⟩

namespace TodosStore

/-- C4 amended: with an end date set, `getNextOccurrenceDate` signals
series-ended when `fromDate` is on or after the end date, and when the
computed next date strictly exceeds the end date; a computed next date
exactly equal to the end date is returned as a real occurrence. -/
theorem recurrence_end_boundary (currentDate : ℤ) (p : RecurrencePattern) (e : ℤ)
    (he : p.endDate = some e) :
    (e ≤ currentDate → getNextOccurrenceDate currentDate p = none) ∧
    (currentDate < e → e < stepDate currentDate p →
      getNextOccurrenceDate currentDate p = none) ∧
    (currentDate < e → stepDate currentDate p = e →
      getNextOccurrenceDate currentDate p = some e) := by
  refine ⟨?_, ?_, ?_⟩
  · intro h
    unfold getNextOccurrenceDate endedBefore
    rw [he]
    simp [h]
  · intro h1 h2
    have hne : ¬ e ≤ currentDate := by omega
    unfold getNextOccurrenceDate endedBefore exceedsEnd
    rw [he]
    simp [hne, h2]
  · intro h1 h2
    have hne : ¬ e ≤ currentDate := by omega
    have hns : ¬ e < stepDate currentDate p := by omega
    unfold getNextOccurrenceDate endedBefore exceedsEnd
    rw [he]
    simp [hne, hns, h2]

/-- Witness for `recurrence_end_boundary`: a daily rule ending on day 5,
queried from day 0. -/
theorem recurrence_end_boundary_witness :
    ((5 : ℤ) ≤ 0 → getNextOccurrenceDate 0 ⟨.daily, 1, none, none, some 5⟩ = none) ∧
    ((0 : ℤ) < 5 → 5 < stepDate 0 ⟨.daily, 1, none, none, some 5⟩ →
      getNextOccurrenceDate 0 ⟨.daily, 1, none, none, some 5⟩ = none) ∧
    ((0 : ℤ) < 5 → stepDate 0 ⟨.daily, 1, none, none, some 5⟩ = 5 →
      getNextOccurrenceDate 0 ⟨.daily, 1, none, none, some 5⟩ = some 5) :=
  recurrence_end_boundary 0 ⟨.daily, 1, none, none, some 5⟩ 5 rfl

/-- Per-frequency step bound: with `interval ≥ 1` and a valid (1–31 or
absent) `dayOfMonth`, the stepped date is strictly later than the
input — in the monthly case forcing the day-of-month happens after
moving at least one month forward, so it can only land in a later
month. -/
theorem stepDate_gt (currentDate : ℤ) (p : RecurrencePattern)
    (hint : 1 ≤ p.interval)
    (hdom : ∀ v, p.dayOfMonth = some v → 1 ≤ v ∧ v ≤ 31) :
    currentDate < stepDate currentDate p := by
  unfold stepDate
  cases hf : p.frequency with
  | daily =>
    show currentDate < JsDate.addDays currentDate p.interval
    rw [JsDate.addDays_eq]
    omega
  | weekly =>
    show currentDate < JsDate.addDays currentDate (7 * p.interval)
    rw [JsDate.addDays_eq]
    omega
  | monthly =>
    obtain ⟨hlt, hmo⟩ := JsDate.addMonths_gt currentDate p.interval hint
    cases hd : p.dayOfMonth with
    | none => exact hlt
    | some v =>
      obtain ⟨hv1, _⟩ := hdom v hd
      show currentDate <
        if v ≠ 0 then JsDate.setDate (JsDate.addMonths currentDate p.interval) v
        else JsDate.addMonths currentDate p.interval
      rw [if_pos (by omega : v ≠ 0)]
      have hmono1 := JsDate.firstDay_le_of_le (JsDate.monthOf currentDate + p.interval)
        (JsDate.monthOf (JsDate.addMonths currentDate p.interval)) hmo
      have hmono2 := JsDate.firstDay_le_of_le (JsDate.monthOf currentDate + 1)
        (JsDate.monthOf currentDate + p.interval) (by omega)
      have hspec := JsDate.monthOf_spec currentDate
      unfold JsDate.setDate
      omega
  | yearly =>
    obtain ⟨hlt, _⟩ := JsDate.addMonths_gt currentDate (12 * p.interval) (by omega)
    exact hlt

/-- C10: whenever `getNextOccurrenceDate` returns a date, that date is
strictly later than `fromDate`, for every frequency, every
`interval ≥ 1` and every valid pattern (`dayOfMonth` absent or in
1–31). -/
theorem nextOccurrence_future (currentDate : ℤ) (p : RecurrencePattern) (r : ℤ)
    (hint : 1 ≤ p.interval)
    (hdom : ∀ v, p.dayOfMonth = some v → 1 ≤ v ∧ v ≤ 31)
    (h : getNextOccurrenceDate currentDate p = some r) :
    currentDate < r := by
  have hstep := stepDate_gt currentDate p hint hdom
  unfold getNextOccurrenceDate at h
  by_cases h1 : endedBefore p currentDate
  · rw [if_pos h1] at h
    exact absurd h (by simp)
  · rw [if_neg h1] at h
    simp only at h
    by_cases h2 : exceedsEnd p (stepDate currentDate p)
    · rw [if_pos h2] at h
      exact absurd h (by simp)
    · rw [if_neg h2] at h
      have hr := Option.some.inj h
      omega

/-- Witness for `nextOccurrence_future`: monthly, interval 1,
`dayOfMonth = 31`, from January 31 of year 0 (day 30); the next
occurrence is March 31 (day 90). -/
theorem nextOccurrence_future_witness : (30 : ℤ) < 90 :=
  nextOccurrence_future 30 ⟨.monthly, 1, none, some 31, none⟩ 90 (by decide)
    (by
      intro v hv
      injection hv with hh
      subst hh
      decide)
    (by decide)

end TodosStore
